import Mathlib

/-!
Verification of `src/example.py`: a small library of arithmetic helpers
(`add`, `divide`, `find_max`, `is_valid_email`, `factorial`) and a stateful
`Calculator` accumulator class.

Embedding conventions:
* Python numbers are modelled by the rationals `ℚ` (exact arithmetic).
* Python strings are modelled by their character lists `List Char`.
* A function that can `raise ValueError(msg)` is modelled as returning
  `Except String α`; the `.error` payload is the exact message string.
* The `Calculator` object is a one-field structure; each method returns the
  new object together with the value the Python method returns.
-/

namespace Example

/-- Embedding of `add(a, b)` from `src/example.py`: returns `a + b`. -/
def add (a b : ℚ) : ℚ := a + b

/-- Embedding of `divide(a, b)` from `src/example.py`: raises
`ValueError("Cannot divide by zero")` when `b == 0`, otherwise returns
`a / b`. -/
def divide (a b : ℚ) : Except String ℚ :=
  if b = 0 then .error "Cannot divide by zero" else .ok (a / b)

/-- Embedding of `find_max(numbers)` from `src/example.py`: raises
`ValueError("List cannot be empty")` on an empty list, otherwise returns the
builtin `max` of the list, which folds binary `max` over the elements. -/
def find_max (numbers : List ℚ) : Except String ℚ :=
  match numbers with
  | [] => .error "List cannot be empty"
  | x :: xs => .ok (xs.foldl max x)

/-- Embedding of Python `str.split(sep)` for a one-character separator `c`,
over character lists: splitting the empty string gives `[""]`, and each
occurrence of the separator starts a new (possibly empty) piece. -/
def splitOnChar (c : Char) : List Char → List (List Char)
  | [] => [[]]
  | x :: xs =>
    let r := splitOnChar c xs
    if x = c then [] :: r
    else
      match r with
      | [] => [[x]]
      | h :: t => (x :: h) :: t

/-- Embedding of `is_valid_email(email)` from `src/example.py`: false when the
string is empty or lacks `'@'` or lacks `'.'`; otherwise split on `'@'`, false
unless there are exactly two parts, else true iff the second part contains
`'.'`. -/
def is_valid_email (email : List Char) : Bool :=
  if email.isEmpty || !email.contains '@' || !email.contains '.' then false
  else
    let parts := splitOnChar '@' email
    if parts.length != 2 then false
    else (parts.getD 1 []).contains '.'

/-- Restatement of the validation rule in the words of the spec (used as the
comparison point for the refinement claim about `is_valid_email`): false if
the string is empty, or does not contain `'@'`, or does not contain `'.'`;
otherwise split on `'@'`; false unless the split yields exactly two parts;
false unless the second part contains `'.'`; true otherwise. -/
def is_valid_email_rule (email : List Char) : Bool :=
  if email = [] then false
  else if '@' ∉ email then false
  else if '.' ∉ email then false
  else
    let parts := splitOnChar '@' email
    if parts.length ≠ 2 then false
    else decide ('.' ∈ parts.getD 1 [])

/-- Embedding of `factorial(n)` from `src/example.py`, over the full numeric
domain `ℚ` (Python accepts non-integer arguments too): raises
`ValueError("Factorial not defined for negative numbers")` when `n < 0`,
returns `1` when `n == 0 or n == 1`, and otherwise returns
`n * factorial(n - 1)`, propagating any error from the recursive call. -/
def factorial (n : ℚ) : Except String ℚ :=
  if n < 0 then .error "Factorial not defined for negative numbers"
  else if n = 0 ∨ n = 1 then .ok 1
  else (factorial (n - 1)).map (fun r => n * r)
termination_by (⌈n⌉).toNat
decreasing_by
  rename_i h0 h1
  have hpos : 0 < n := by
    rcases lt_or_eq_of_le (not_lt.mp h0) with h | h
    · exact h
    · exact absurd h.symm (fun he => h1 (Or.inl he))
  have hc : 0 < ⌈n⌉ := Int.ceil_pos.mpr hpos
  have hsub : ⌈n - 1⌉ = ⌈n⌉ - 1 := Int.ceil_sub_one n
  omega

/-- Embedding of the `Calculator` class from `src/example.py`: a single
mutable numeric field `result`. -/
structure Calculator where
  result : ℚ

/-- Embedding of `Calculator.__init__`: sets `result = 0`. -/
def Calculator.init : Calculator := ⟨0⟩

/-- Embedding of `Calculator.add(value)`: `result += value`, then returns the
new `result`; in-place mutation is modelled by returning the updated object
together with the returned value. -/
def Calculator.add (c : Calculator) (value : ℚ) : Calculator × ℚ :=
  ({ c with result := c.result + value }, c.result + value)

/-- Embedding of `Calculator.subtract(value)`: `result -= value`, then
returns the new `result`. -/
def Calculator.subtract (c : Calculator) (value : ℚ) : Calculator × ℚ :=
  ({ c with result := c.result - value }, c.result - value)

/-- Embedding of `Calculator.reset()`: `result = 0`, then returns `0`. -/
def Calculator.reset (c : Calculator) : Calculator × ℚ :=
  ({ c with result := 0 }, 0)

/-- A single method call in a `Calculator` usage trace. -/
inductive Op where
  | add (value : ℚ)
  | subtract (value : ℚ)
  | reset

/-- Performs one method call on a calculator object. -/
def step (c : Calculator) : Op → Calculator × ℚ
  | .add v => c.add v
  | .subtract v => c.subtract v
  | .reset => c.reset

/-- Runs a finite sequence of method calls, keeping the final object. -/
def run (c : Calculator) (ops : List Op) : Calculator :=
  ops.foldl (fun c op => (step c op).1) c

/-- The calls made since the most recent `reset` of a trace (all of them when
no reset occurred), following the wording of the spec invariant. -/
def afterLastReset (ops : List Op) : List Op :=
  ops.foldl (fun acc op => match op with | .reset => [] | o => acc ++ [o]) []

/-- The contribution of one call to the accumulator: the value passed to
`add`, the negated value passed to `subtract`, nothing for `reset`. -/
def opDelta : Op → ℚ
  | .add v => v
  | .subtract v => -v
  | .reset => 0

/-- Sum of the values passed to `add` minus the sum of the values passed to
`subtract` over a trace. -/
def netDelta (ops : List Op) : ℚ := (ops.map opDelta).sum

end Example

namespace Example

/-- Claim C7: the top-level `add` is commutative over numbers. -/
theorem add_commutative : ∀ a b : ℚ, add a b = add b a := by
  intro a b
  simp [add, add_comm]

/-- Claim C3: `divide(a, b)` raises the `ValueError` exactly when `b = 0`,
and for `b ≠ 0` it returns the quotient `a / b` (so no error is raised). -/
theorem divide_spec :
    ∀ a b : ℚ,
      (divide a b = .error "Cannot divide by zero" ↔ b = 0) ∧
      (b ≠ 0 → divide a b = .ok (a / b)) := by
  intro a b
  constructor
  · constructor
    · intro h
      by_contra hb
      simp [divide, hb] at h
    · intro hb
      simp [divide, hb]
  · intro hb
    simp [divide, hb]

/-- Witness for C3: `divide 6 3` succeeds with quotient `2`. -/
theorem divide_spec_witness : divide 6 3 = .ok 2 := by
  have h := (divide_spec 6 3).2 (by norm_num)
  norm_num at h
  exact h

/-- Claim C8: for `b ≠ 0`, the result of `divide(a, b)` multiplied back by `b`
is exactly `a` under exact rational arithmetic. -/
theorem divide_mul_cancel :
    ∀ a b : ℚ, b ≠ 0 → ∃ q, divide a b = .ok q ∧ q * b = a := by
  intro a b hb
  refine ⟨a / b, ?_, ?_⟩
  · simp [divide, hb]
  · exact div_mul_cancel₀ a hb

/-- Witness for C8: `divide 6 3` returns `2` and `2 * 3 = 6`. -/
theorem divide_mul_cancel_witness :
    ∃ q, divide 6 3 = .ok q ∧ q * 3 = 6 :=
  divide_mul_cancel 6 3 (by norm_num)

/-- Folding binary `max` over a list never goes below the initial value. -/
theorem init_le_foldl_max (xs : List ℚ) : ∀ a : ℚ, a ≤ xs.foldl max a := by
  induction xs with
  | nil => intro a; simp
  | cons y ys ih =>
    intro a
    calc a ≤ max a y := le_max_left a y
    _ ≤ ys.foldl max (max a y) := ih (max a y)

/-- Folding binary `max` over a list dominates every list element. -/
theorem mem_le_foldl_max (xs : List ℚ) :
    ∀ a x : ℚ, x ∈ xs → x ≤ xs.foldl max a := by
  induction xs with
  | nil => intro a x hx; cases hx
  | cons y ys ih =>
    intro a x hx
    rcases List.mem_cons.mp hx with h | h
    · subst h
      calc x ≤ max a x := le_max_right a x
      _ ≤ ys.foldl max (max a x) := init_le_foldl_max ys (max a x)
    · exact ih (max a y) x h

/-- The fold of binary `max` is either the initial value or a list element. -/
theorem foldl_max_mem (xs : List ℚ) :
    ∀ a : ℚ, xs.foldl max a = a ∨ xs.foldl max a ∈ xs := by
  induction xs with
  | nil => intro a; left; rfl
  | cons y ys ih =>
    intro a
    rcases ih (max a y) with h | h
    · rcases max_choice a y with hm | hm
      · left; simp only [List.foldl_cons]; rw [h, hm]
      · right; simp only [List.foldl_cons]; rw [h, hm]; exact List.mem_cons_self y ys
    · right
      simp only [List.foldl_cons]
      exact List.mem_cons_of_mem y h

/-- Claim C4: `find_max` raises `ValueError("List cannot be empty")` exactly on
the empty list; on a non-empty list it returns an element of the list that is
greater than or equal to every element. -/
theorem find_max_spec :
    ∀ l : List ℚ,
      (l = [] ↔ find_max l = .error "List cannot be empty") ∧
      (l ≠ [] → ∃ m, find_max l = .ok m ∧ m ∈ l ∧ ∀ x ∈ l, x ≤ m) := by
  intro l
  match l with
  | [] =>
    refine ⟨⟨fun _ => rfl, fun _ => rfl⟩, fun h => absurd rfl h⟩
  | x :: xs =>
    constructor
    · constructor
      · intro h; cases h
      · intro h; simp [find_max] at h
    · intro _
      refine ⟨xs.foldl max x, rfl, ?_, ?_⟩
      · rcases foldl_max_mem xs x with h | h
        · rw [h]; exact List.mem_cons_self x xs
        · exact List.mem_cons_of_mem x h
      · intro y hy
        rcases List.mem_cons.mp hy with h | h
        · subst h; exact init_le_foldl_max xs y
        · exact mem_le_foldl_max xs x y h

/-- On natural-number inputs, `factorial` computes the mathematical
factorial `k!`, the product `1 * 2 * ... * k`. -/
theorem factorial_natCast : ∀ k : ℕ, factorial (k : ℚ) = .ok (k.factorial : ℚ) := by
  intro k
  induction k with
  | zero =>
    rw [factorial]
    norm_num
  | succ k ih =>
    rcases Nat.eq_zero_or_pos k with hk | hk
    · subst hk
      rw [factorial]
      norm_num
    · have h0 : ¬ ((k + 1 : ℕ) : ℚ) < 0 := not_lt.mpr (by positivity)
      have h1 : ¬ (((k + 1 : ℕ) : ℚ) = 0 ∨ ((k + 1 : ℕ) : ℚ) = 1) := by
        rintro (h | h)
        · have : k + 1 = 0 := Nat.cast_eq_zero.mp h
          omega
        · have : k + 1 = 1 := Nat.cast_eq_one.mp h
          omega
      have hcast : ((k + 1 : ℕ) : ℚ) - 1 = (k : ℚ) := by push_cast; ring
      rw [factorial, if_neg h0, if_neg h1, hcast, ih]
      show Except.ok (((k + 1 : ℕ) : ℚ) * (k.factorial : ℚ)) = _
      congr 1
      push_cast [Nat.factorial_succ]
      ring

/-- Claim C1: for every integer `n ≥ 0`, `factorial(n)` returns `n!`, and for
every integer `n < 0` it raises
`ValueError("Factorial not defined for negative numbers")`. -/
theorem factorial_int_spec :
    ∀ n : ℤ,
      (0 ≤ n → factorial (n : ℚ) = .ok ((n.toNat.factorial : ℕ) : ℚ)) ∧
      (n < 0 →
        factorial (n : ℚ) = .error "Factorial not defined for negative numbers") := by
  intro n
  constructor
  · intro hn
    have h : ((n.toNat : ℕ) : ℚ) = (n : ℚ) := by exact_mod_cast Int.toNat_of_nonneg hn
    rw [← h]
    exact factorial_natCast n.toNat
  · intro hn
    have h : ((n : ℚ)) < 0 := by exact_mod_cast hn
    rw [factorial, if_pos h]

/-- Witness for C1: `factorial 5 = 120` and `factorial (-1)` raises the error. -/
theorem factorial_int_spec_witness :
    factorial (((5 : ℤ) : ℚ)) = .ok 120 ∧
      factorial (((-1 : ℤ) : ℚ)) =
        .error "Factorial not defined for negative numbers" := by
  constructor
  · have h := (factorial_int_spec 5).1 (by norm_num)
    norm_num [Nat.factorial] at h
    exact h
  · exact (factorial_int_spec (-1)).2 (by norm_num)

/-- Claim C6: the three error messages are exactly the strings from the
source: `"Cannot divide by zero"`, `"List cannot be empty"`, and
`"Factorial not defined for negative numbers"`. -/
theorem error_messages :
    ∀ a q : ℚ, q < 0 →
      divide a 0 = .error "Cannot divide by zero" ∧
      find_max ([] : List ℚ) = .error "List cannot be empty" ∧
      factorial q = .error "Factorial not defined for negative numbers" := by
  intro a q hq
  refine ⟨by simp [divide], rfl, ?_⟩
  rw [factorial, if_pos hq]

/-- Witness for C6: the three messages at `a = 1`, `q = -1`. -/
theorem error_messages_witness :
    divide 1 0 = .error "Cannot divide by zero" ∧
      find_max ([] : List ℚ) = .error "List cannot be empty" ∧
      factorial (-1) = .error "Factorial not defined for negative numbers" :=
  error_messages 1 (-1) (by norm_num)

/-- Claim C10: on every positive non-integer rational the recursion in
`factorial` walks down past the base cases and raises
`ValueError("Factorial not defined for negative numbers")`. -/
theorem factorial_non_integer :
    ∀ q : ℚ, 0 < q → (∀ m : ℤ, q ≠ (m : ℚ)) →
      factorial q = .error "Factorial not defined for negative numbers" := by
  suffices h : ∀ k : ℕ, ∀ q : ℚ, (⌈q⌉).toNat ≤ k → 0 < q →
      (∀ m : ℤ, q ≠ (m : ℚ)) →
      factorial q = .error "Factorial not defined for negative numbers" by
    intro q hq hint
    exact h (⌈q⌉).toNat q le_rfl hq hint
  intro k
  induction k with
  | zero =>
    intro q hk hq _
    have hc : 0 < ⌈q⌉ := Int.ceil_pos.mpr hq
    omega
  | succ k ih =>
    intro q hk hq hint
    have hne0 : q ≠ 0 := fun h => hint 0 (by rw [h]; norm_num)
    have hne1 : q ≠ 1 := fun h => hint 1 (by rw [h]; norm_num)
    rw [factorial, if_neg (not_lt.mpr hq.le),
      if_neg (by rintro (h | h) <;> [exact hne0 h; exact hne1 h])]
    by_cases hlt : q - 1 < 0
    · rw [factorial, if_pos hlt]
      rfl
    · have hq1 : 0 < q - 1 := by
        rcases (not_lt.mp hlt).lt_or_eq with h | h
        · exact h
        · exact absurd (by linarith : q = 1) hne1
      have hint1 : ∀ m : ℤ, q - 1 ≠ (m : ℚ) := by
        intro m hm
        apply hint (m + 1)
        push_cast
        linarith
      have hk1 : (⌈q - 1⌉).toNat ≤ k := by
        have hsub : ⌈q - 1⌉ = ⌈q⌉ - 1 := Int.ceil_sub_one q
        have hc : 0 < ⌈q⌉ := Int.ceil_pos.mpr hq
        omega
      rw [ih (q - 1) hk1 hq1 hint1]
      rfl

/-- Witness for C10: `factorial (5/2)` raises the negative-input error. -/
theorem factorial_non_integer_witness :
    factorial (5 / 2) = .error "Factorial not defined for negative numbers" := by
  apply factorial_non_integer (5 / 2) (by norm_num)
  intro m hm
  have h2 : (5 : ℚ) = (m : ℚ) * 2 := (div_eq_iff (by norm_num)).mp hm
  have h3 : (5 : ℤ) = m * 2 := by exact_mod_cast h2
  omega

/-- Witness for C4: `find_max [3, 1, 4, 1, 5] = 5`, and that value is a member
of the list dominating every element. -/
theorem find_max_spec_witness :
    find_max [3, 1, 4, 1, 5] = .ok 5 ∧
      ∃ m, find_max [3, 1, 4, 1, 5] = .ok m ∧
        m ∈ [3, 1, 4, 1, 5] ∧ ∀ x ∈ [(3 : ℚ), 1, 4, 1, 5], x ≤ m := by
  refine ⟨?_, (find_max_spec [3, 1, 4, 1, 5]).2 (by simp)⟩
  show Except.ok ([(1 : ℚ), 4, 1, 5].foldl max 3) = Except.ok 5
  norm_num

/-- Boolean membership test on lists agrees with propositional membership. -/
theorem contains_eq_decide_mem (l : List Char) (c : Char) :
    l.contains c = decide (c ∈ l) := by
  by_cases h : c ∈ l <;> simp [List.elem_iff, h]

/-- Claim C2: `is_valid_email` computes exactly the rule stated in the spec,
and the five quoted examples evaluate as stated. -/
theorem is_valid_email_spec :
    (∀ email : List Char, is_valid_email email = is_valid_email_rule email) ∧
      is_valid_email "a@b.com".data = true ∧
      is_valid_email "".data = false ∧
      is_valid_email "no-at-sign.com".data = false ∧
      is_valid_email "a@b@c.com".data = false ∧
      is_valid_email "a@bcom".data = false := by
  refine ⟨?_, by decide, by decide, by decide, by decide, by decide⟩
  intro email
  unfold is_valid_email is_valid_email_rule
  simp only [contains_eq_decide_mem]
  by_cases h1 : email = []
  · simp [h1]
  · by_cases h2 : '@' ∈ email
    · by_cases h3 : '.' ∈ email
      · simp [h1, h2, h3, List.isEmpty_iff]
      · simp [h1, h2, h3, List.isEmpty_iff]
    · simp [h1, h2, List.isEmpty_iff]

/-- Splitting on a character that does not occur in the list yields the whole
list as the single piece. -/
theorem splitOnChar_not_mem (c : Char) (l : List Char) (h : c ∉ l) :
    splitOnChar c l = [l] := by
  induction l with
  | nil => rfl
  | cons x xs ih =>
    have hx : ¬ x = c := fun he => h (he ▸ List.mem_cons_self x xs)
    have hxs : c ∉ xs := fun hm => h (List.mem_cons_of_mem x hm)
    simp only [splitOnChar, ih hxs]
    rw [if_neg hx]

/-- Claim C9: `is_valid_email` never checks that the local part before `'@'`
is non-empty: every string `'@' :: d` with `d` a non-empty domain containing
`'.'` and no `'@'` is accepted. -/
theorem email_empty_local_part :
    ∀ d : List Char, d ≠ [] → '.' ∈ d → '@' ∉ d →
      is_valid_email ('@' :: d) = true := by
  intro d hne hdot hat
  have hsplit : splitOnChar '@' ('@' :: d) = [[], d] := by
    simp [splitOnChar, splitOnChar_not_mem '@' d hat]
  simp [is_valid_email, hsplit, contains_eq_decide_mem, hdot]

/-- Witness for C9: `is_valid_email "@b.com" = true`. -/
theorem email_empty_local_part_witness :
    is_valid_email ('@' :: "b.com".data) = true :=
  email_empty_local_part "b.com".data (by decide) (by decide) (by decide)

/-- Running a trace from a fresh calculator always leaves `result` equal to
the net delta of the calls made since the most recent reset. -/
theorem run_result_net :
    ∀ ops : List Op,
      (run Calculator.init ops).result = netDelta (afterLastReset ops) := by
  intro ops
  induction ops using List.reverseRecOn with
  | nil => rfl
  | append_singleton l op ih =>
    have hrun : run Calculator.init (l ++ [op]) =
        (step (run Calculator.init l) op).1 := by
      simp [run, List.foldl_append]
    cases op with
    | add v =>
      have hafter : afterLastReset (l ++ [Op.add v]) =
          afterLastReset l ++ [Op.add v] := by
        simp [afterLastReset, List.foldl_append]
      rw [hrun, hafter]
      simp [step, Calculator.add, netDelta, opDelta, ih]
    | subtract v =>
      have hafter : afterLastReset (l ++ [Op.subtract v]) =
          afterLastReset l ++ [Op.subtract v] := by
        simp [afterLastReset, List.foldl_append]
      rw [hrun, hafter]
      simp [step, Calculator.subtract, netDelta, opDelta, ih]
      ring
    | reset =>
      have hafter : afterLastReset (l ++ [Op.reset]) = [] := by
        simp [afterLastReset, List.foldl_append]
      rw [hrun, hafter]
      simp [step, Calculator.reset, netDelta]

/-- Claim C5: a fresh `Calculator` has `result = 0`; after any finite trace of
`add`, `subtract` and `reset` calls, `result` equals the sum of the values
passed to `add` minus the sum of the values passed to `subtract` since the
most recent reset (or since construction); each method returns the updated
`result`; the trace `add 5`, `subtract 2`, `add 10` returns `5`, `3`, `13`;
and a `reset` after any trace puts `result` back to `0`. -/
theorem calculator_invariant :
    Calculator.init.result = 0 ∧
      (∀ ops : List Op,
        (run Calculator.init ops).result = netDelta (afterLastReset ops)) ∧
      (∀ (c : Calculator) (v : ℚ),
        (c.add v).2 = (c.add v).1.result ∧ (c.add v).1.result = c.result + v) ∧
      (∀ (c : Calculator) (v : ℚ),
        (c.subtract v).2 = (c.subtract v).1.result ∧
          (c.subtract v).1.result = c.result - v) ∧
      (∀ c : Calculator, (c.reset).2 = (c.reset).1.result ∧ (c.reset).1.result = 0) ∧
      ((Calculator.init.add 5).2 = 5 ∧
        ((Calculator.init.add 5).1.subtract 2).2 = 3 ∧
        (((Calculator.init.add 5).1.subtract 2).1.add 10).2 = 13) ∧
      (∀ ops : List Op, (run Calculator.init (ops ++ [Op.reset])).result = 0) := by
  refine ⟨rfl, run_result_net, fun c v => ⟨rfl, rfl⟩, fun c v => ⟨rfl, rfl⟩,
    fun c => ⟨rfl, rfl⟩, ?_, ?_⟩
  · norm_num [Calculator.init, Calculator.add, Calculator.subtract]
  · intro ops
    have h : run Calculator.init (ops ++ [Op.reset]) =
        (step (run Calculator.init ops) Op.reset).1 := by
      simp [run, List.foldl_append]
    rw [h]
    rfl

end Example
